import Mathlib

/-!
Shallow embedding of the `xyz` crate (`src/lib.rs`), a reader/writer for the
RPG Maker XYZ indexed-color image format, together with proofs of its
specification properties.

Modelling conventions:
* A byte stream is a `List Nat`; genuine byte streams have all elements `< 256`
  (in Rust this is enforced by the `u8` type, here it appears as a hypothesis
  where it matters).
* `u16` fields (`width`, `height`) are `Nat` with the `< 65536` bound carried
  as a hypothesis; it is guaranteed by the Rust type.
* The zlib compression collaborator (the `flate2` crate, external to this
  repository) is modelled abstractly as a `ZlibCodec`: a compressing transform
  and a fallible decompressing transform, with the round-trip law
  `ZlibCodec.Lawful` stating the contract the codec relies on.
* Rust `io::Error` values are modelled by the observable (kind, message) data
  the code actually produces: `read_exact` / `byteorder` short reads all yield
  the same `UnexpectedEof` error (`IoError.eof`); the two `io::Error::new`
  calls in `read` yield `InvalidData` errors with their messages; failures of
  the decompressor are `IoError.zlib`.
-/

set_option maxRecDepth 100000

namespace Xyz

/-- `const MAGIC_NUMBER: u32 = 0x315a5958;  // "XYZ1"` -/
def MAGIC_NUMBER : Nat := 0x315a5958

/-- `pub type Rgb = [u8; 3];` — a color in RGB form. Well-formed values have
length 3 and all entries `< 256`. -/
abbrev Rgb := List Nat

/-- `pub struct Image` — an XYZ image: dimensions, 256-color palette and
pixel-index buffer. The Rust palette type `[Rgb; 256]` guarantees length 256;
here that is the `Image.TypeWF` predicate. -/
structure Image where
  width : Nat
  height : Nat
  palette : List Rgb
  buffer : List Nat
deriving DecidableEq

/-- The invariants the Rust types alone guarantee for any `Image` value:
`u16` dimensions, a 256-entry palette of byte triples, and a byte buffer.
(The `buffer.length = width * height` invariant is deliberately *not* part of
this predicate: the Rust type does not enforce it.) -/
def Image.TypeWF (img : Image) : Prop :=
  img.width < 65536 ∧ img.height < 65536 ∧
  img.palette.length = 256 ∧
  (∀ p ∈ img.palette, p.length = 3 ∧ ∀ b ∈ p, b < 256) ∧
  (∀ b ∈ img.buffer, b < 256)

instance (img : Image) : Decidable img.TypeWF := by
  unfold Image.TypeWF; infer_instance

/-- `Image::to_rgb_buffer`: flat-map each pixel's palette index to the three
channel values of the palette entry at that index. Rust's `self.palette[i as
usize]` always succeeds because the index is a `u8` and the palette has 256
entries; `List.getD` with default `[]` models the same lookup and the claims
only exercise it in range. -/
def Image.to_rgb_buffer (img : Image) : List Nat :=
  img.buffer.flatMap (fun i => img.palette.getD i [])

/-! ### Byte-level readers and writers (`byteorder` + `Read::read_exact`) -/

/-- `reader.read_u16::<LittleEndian>()`: consume two bytes, assemble them
little-endian; fewer than two bytes available is an `UnexpectedEof` failure. -/
def readU16LE : List Nat → Option (Nat × List Nat)
  | a :: b :: rest => some (a + 256 * b, rest)
  | _ => none

/-- `reader.read_u32::<LittleEndian>()`: consume four bytes little-endian. -/
def readU32LE : List Nat → Option (Nat × List Nat)
  | a :: b :: c :: d :: rest =>
      some (a + 256 * (b + 256 * (c + 256 * d)), rest)
  | _ => none

/-- `body.read_exact(buf)` on a slice for a buffer of length `n`: succeed with
the first `n` bytes and the remainder exactly when `n` bytes are available. -/
def readExact (n : Nat) (body : List Nat) : Option (List Nat × List Nat) :=
  if n ≤ body.length then some (body.take n, body.drop n) else none

/-- The palette-reading loop of `read`: `for slot in palette.iter_mut() {
body.read_exact(slot) }`, reading `n` consecutive 3-byte slots. -/
def readPalette : Nat → List Nat → Option (List Rgb × List Nat)
  | 0, body => some ([], body)
  | n + 1, body =>
    match readExact 3 body with
    | none => none
    | some (slot, body) =>
      match readPalette n body with
      | none => none
      | some (rest, body) => some (slot :: rest, body)

/-- Little-endian serialization of a `u16` (`write_u16::<LittleEndian>`). -/
def u16leBytes (n : Nat) : List Nat := [n % 256, n / 256 % 256]

/-- Little-endian serialization of a `u32` (`write_u32::<LittleEndian>`). -/
def u32leBytes (n : Nat) : List Nat :=
  [n % 256, n / 256 % 256, n / 65536 % 256, n / 16777216 % 256]

/-! ### The compression collaborator (`flate2`, external to the repository) -/

/-- The zlib collaborator of §6: a compressing transform and a fallible
decompressing transform over byte streams. -/
structure ZlibCodec where
  compress : List Nat → List Nat
  decompress : List Nat → Option (List Nat)

/-- The contract the codec requires of any conformant zlib implementation:
decompressing a compressed stream recovers the plaintext exactly. -/
def ZlibCodec.Lawful (c : ZlibCodec) : Prop :=
  ∀ body, c.decompress (c.compress body) = some body

/-- A trivially conformant codec (identity transform), used to evaluate the
model on concrete byte streams. -/
def idCodec : ZlibCodec where
  compress := fun b => b
  decompress := fun b => some b

/-! ### Error model -/

/-- The observable `io::Error` values `read` can produce: `eof` is the
`UnexpectedEof` / "failed to fill whole buffer" error shared by every short
read (`byteorder` reads and both `read_exact` sites); `invalidData msg` is an
`io::Error::new(ErrorKind::InvalidData, msg)`; `zlib` is a decompression
failure propagated from `flate2`. -/
inductive IoError where
  | eof
  | invalidData (msg : String)
  | zlib
deriving DecidableEq

/-! ### The codec itself -/

/-- `pub fn read<R: Read>(reader: &mut R) -> io::Result<Image>`, over a byte
stream, parameterized by the zlib collaborator. -/
def read (c : ZlibCodec) (input : List Nat) : Except IoError Image :=
  match readU32LE input with
  | none => .error .eof
  | some (magic, rest) =>
    if magic ≠ MAGIC_NUMBER then .error (.invalidData "invalid XYZ header")
    else
      match readU16LE rest with
      | none => .error .eof
      | some (width, rest) =>
        match readU16LE rest with
        | none => .error .eof
        | some (height, rest) =>
          match c.decompress rest with
          | none => .error .zlib
          | some body =>
            match readPalette 256 body with
            | none => .error .eof
            | some (palette, body) =>
              match readExact (width * height) body with
              | none => .error .eof
              | some (buffer, body) =>
                if ¬ body.isEmpty then
                  .error (.invalidData "extra data at end of XYZ file")
                else
                  .ok { width := width, height := height,
                        palette := palette, buffer := buffer }

/-- The plaintext the encoder feeds through the compressing stream: all 256
palette slots in index order, then the whole pixel buffer. -/
def writeBody (img : Image) : List Nat :=
  img.palette.flatMap id ++ img.buffer

/-- `pub fn write<W: Write>(image: &Image, writer: &mut W) -> io::Result<()>`:
the byte stream produced on a non-failing sink. -/
def write (c : ZlibCodec) (img : Image) : List Nat :=
  u32leBytes MAGIC_NUMBER ++ u16leBytes img.width ++ u16leBytes img.height
    ++ c.compress (writeBody img)

/-! ### Sample values for concrete evaluation -/

/-- An all-black 256-entry palette. -/
def blackPalette : List Rgb := List.replicate 256 [0, 0, 0]

/-- A minimal well-formed image (width 0, height 0, empty buffer). -/
def emptyImage : Image :=
  { width := 0, height := 0, palette := blackPalette, buffer := [] }

/-- The palette of the spec's RGB-expansion example: all black except
entry 5 = [10, 20, 30] and entry 7 = [40, 50, 60]. -/
def examplePalette : List Rgb :=
  (blackPalette.set 5 [10, 20, 30]).set 7 [40, 50, 60]

/-- The spec's RGB-expansion example image: 2×1 pixels, indices [5, 7]. -/
def exampleImage : Image :=
  { width := 2, height := 1, palette := examplePalette, buffer := [5, 7] }

/-- An image whose buffer is shorter than `width * height` (1×1 pixels but an
empty buffer): type-correct in Rust, yet violating the codec's caller
contract. -/
def shortImage : Image :=
  { width := 1, height := 1, palette := blackPalette, buffer := [] }

/-- An image whose buffer length (2) differs from `width * height` (25). -/
def malformedImage : Image :=
  { width := 5, height := 5, palette := blackPalette, buffer := [1, 2] }

/-! ### Parsing lemmas -/

lemma readU16LE_u16leBytes (w : Nat) (hw : w < 65536) (r : List Nat) :
    readU16LE (u16leBytes w ++ r) = some (w, r) := by
  show readU16LE (w % 256 :: w / 256 % 256 :: r) = some (w, r)
  simp only [readU16LE]
  have hval : w % 256 + 256 * (w / 256 % 256) = w := by omega
  rw [hval]

lemma readU32LE_magic (r : List Nat) :
    readU32LE (u32leBytes MAGIC_NUMBER ++ r) = some (MAGIC_NUMBER, r) := by
  show readU32LE (0x58 :: 0x59 :: 0x5a :: 0x31 :: r) = some (MAGIC_NUMBER, r)
  simp only [readU32LE]
  norm_num [MAGIC_NUMBER]

lemma readExact_append (xs r : List Nat) :
    readExact xs.length (xs ++ r) = some (xs, r) := by
  simp [readExact, List.take_left, List.drop_left]

lemma readExact_all (body : List Nat) :
    readExact body.length body = some (body, []) := by
  simpa using readExact_append body []

lemma readExact_eq_none (n : Nat) (body : List Nat) (h : body.length < n) :
    readExact n body = none := by
  unfold readExact
  rw [if_neg (by omega)]

lemma readExact_of_le (n : Nat) (body : List Nat) (h : n ≤ body.length) :
    readExact n body = some (body.take n, body.drop n) := by
  unfold readExact
  rw [if_pos h]

lemma readPalette_append (ps : List Rgb) (h3 : ∀ p ∈ ps, p.length = 3)
    (r : List Nat) :
    readPalette ps.length (ps.flatMap id ++ r) = some (ps, r) := by
  induction ps generalizing r with
  | nil => simp [readPalette]
  | cons p tl ih =>
    have hp3 : p.length = 3 := h3 p (by simp)
    have hstep : readExact 3 (p ++ (tl.flatMap id ++ r)) = some (p, tl.flatMap id ++ r) := by
      rw [← hp3]; exact readExact_append p _
    simp only [List.length_cons, List.flatMap_cons, id_eq, List.append_assoc,
      readPalette, hstep, ih (fun q hq => h3 q (by simp [hq])) r]

lemma readPalette_none_of_short (n : Nat) (body : List Nat)
    (h : body.length < 3 * n) : readPalette n body = none := by
  induction n generalizing body with
  | zero => omega
  | succ m ih =>
    by_cases h3 : 3 ≤ body.length
    · rw [readPalette]
      simp only [readExact_of_le 3 body h3, ih (body.drop 3) (by simp; omega)]
    · rw [readPalette]
      simp only [readExact_eq_none 3 body (by omega)]

lemma readPalette_some_of_le (n : Nat) (body : List Nat)
    (h : 3 * n ≤ body.length) :
    ∃ ps : List Rgb, readPalette n body = some (ps, body.drop (3 * n))
      ∧ ps.length = n ∧ ∀ p ∈ ps, p.length = 3 := by
  induction n generalizing body with
  | zero => exact ⟨[], by simp [readPalette], rfl, by simp⟩
  | succ m ih =>
    obtain ⟨ps, hps, hlen, h3⟩ := ih (body.drop 3) (by simp; omega)
    refine ⟨body.take 3 :: ps, ?_, by simp [hlen], ?_⟩
    · have hdrop : (body.drop 3).drop (3 * m) = body.drop (3 * (m + 1)) := by
        rw [List.drop_drop]; ring_nf
      rw [readPalette]
      simp only [readExact_of_le 3 body (by omega), hps, hdrop]
    · intro p hp
      rcases List.mem_cons.mp hp with h | h
      · subst h; simp; omega
      · exact h3 p h

lemma length_flatMap_id (ps : List Rgb) (h3 : ∀ p ∈ ps, p.length = 3) :
    (ps.flatMap id).length = 3 * ps.length := by
  induction ps with
  | nil => simp
  | cons p tl ih =>
    have hp := h3 p (by simp)
    rw [List.flatMap_cons, List.length_append, id_eq, hp,
      ih (fun q hq => h3 q (by simp [hq])), List.length_cons]
    ring

lemma readExact_fields (n : Nat) (body buf rest : List Nat)
    (h : readExact n body = some (buf, rest)) :
    buf.length = n ∧ rest = body.drop n ∧ n ≤ body.length := by
  unfold readExact at h
  split at h
  · rename_i hle
    rw [Option.some.injEq, Prod.mk.injEq] at h
    obtain ⟨h1, h2⟩ := h
    refine ⟨?_, h2.symm, hle⟩
    rw [← h1, List.length_take]
    omega
  · exact Option.noConfusion h

lemma readPalette_fields (n : Nat) (body : List Nat) (ps : List Rgb)
    (rest : List Nat) (h : readPalette n body = some (ps, rest)) :
    ps.length = n ∧ (∀ p ∈ ps, p.length = 3) ∧ rest = body.drop (3 * n) := by
  by_cases hlen : 3 * n ≤ body.length
  · obtain ⟨ps', hps', hl, h3⟩ := readPalette_some_of_le n body hlen
    rw [h, Option.some.injEq, Prod.mk.injEq] at hps'
    obtain ⟨h1, h2⟩ := hps'
    exact ⟨h1 ▸ hl, h1 ▸ h3, h2⟩
  · rw [readPalette_none_of_short n body (by omega)] at h
    exact Option.noConfusion h

lemma flatMap_chunk_length (buf : List Nat) (f : Nat → List Nat)
    (hf : ∀ b ∈ buf, (f b).length = 3) :
    (buf.flatMap f).length = 3 * buf.length := by
  induction buf with
  | nil => simp
  | cons b tl ih =>
    rw [List.flatMap_cons, List.length_append, hf b (by simp),
      ih (fun q hq => hf q (by simp [hq])), List.length_cons]
    ring

lemma flatMap_chunk_drop_take (buf : List Nat) (f : Nat → List Nat)
    (hf : ∀ b ∈ buf, (f b).length = 3) (k : Nat) (hk : k < buf.length) :
    ((buf.flatMap f).drop (3 * k)).take 3 = f (buf.getD k 0) := by
  induction buf generalizing k with
  | nil => simp at hk
  | cons b tl ih =>
    cases k with
    | zero =>
      have hb := hf b (by simp)
      rw [List.flatMap_cons, Nat.mul_zero, List.drop_zero, List.getD_cons_zero,
        ← hb, List.take_left]
    | succ k =>
      have hb := hf b (by simp)
      have harith : 3 * (k + 1) = (f b).length + 3 * k := by rw [hb]; ring
      rw [List.flatMap_cons, List.getD_cons_succ, harith, List.drop_append]
      exact ih (fun q hq => hf q (by simp [hq])) k (by simpa using hk)

lemma palette_getD_length (ps : List Rgb) (hplen : ps.length = 256)
    (hslots : ∀ p ∈ ps, p.length = 3) (b : Nat) (hb : b < 256) :
    (ps.getD b []).length = 3 := by
  have hlt : b < ps.length := by omega
  rw [List.getD_eq_getElem ps [] hlt]
  exact hslots _ (List.getElem_mem hlt)

/-- Decoding a stream with a valid magic, width and height reduces to parsing
the decompressed body. -/
lemma read_frame (c : ZlibCodec) (hc : c.Lawful) (w h : Nat)
    (hw : w < 65536) (hh : h < 65536) (body : List Nat) :
    read c (u32leBytes MAGIC_NUMBER ++ u16leBytes w ++ u16leBytes h
        ++ c.compress body)
      = match readPalette 256 body with
        | none => .error .eof
        | some (palette, rest) =>
          match readExact (w * h) rest with
          | none => .error .eof
          | some (buffer, rest) =>
            if ¬ rest.isEmpty then
              .error (.invalidData "extra data at end of XYZ file")
            else
              .ok { width := w, height := h, palette := palette, buffer := buffer } := by
  have happ : u32leBytes MAGIC_NUMBER ++ u16leBytes w ++ u16leBytes h
        ++ c.compress body
      = u32leBytes MAGIC_NUMBER ++ (u16leBytes w ++ (u16leBytes h
        ++ c.compress body)) := by
    simp [List.append_assoc]
  rw [read, happ, readU32LE_magic]
  simp only [ne_eq, not_true_eq_false, if_false,
    readU16LE_u16leBytes w hw, readU16LE_u16leBytes h hh, hc body]

/-! ### Claim theorems -/

/-- C1: for every well-formed `Image` (buffer length exactly `width * height`,
and the invariants the Rust types guarantee), writing it with `write` and then
reading the produced byte stream with `read` (through any conformant zlib
codec) succeeds and yields an `Image` equal to the original in width, height,
palette and buffer, byte for byte. -/
theorem read_write_roundtrip (c : ZlibCodec) (hc : c.Lawful) (img : Image)
    (hty : img.TypeWF) (hbuf : img.buffer.length = img.width * img.height) :
    read c (write c img) = .ok img := by
  obtain ⟨hw, hh, hplen, hpslots, _⟩ := hty
  have hslots3 : ∀ p ∈ img.palette, p.length = 3 := fun p hp => (hpslots p hp).1
  have hp := readPalette_append img.palette hslots3 img.buffer
  rw [hplen] at hp
  have hb : readExact (img.width * img.height) img.buffer = some (img.buffer, []) := by
    rw [← hbuf]; exact readExact_all img.buffer
  rw [write, writeBody, read_frame c hc img.width img.height hw hh]
  simp only [hp, hb, List.isEmpty_nil, not_true_eq_false, if_false]

/-- C1 witness: round-trip evaluated on a concrete image through a concrete
conformant codec. -/
theorem read_write_roundtrip_witness :
    read idCodec (write idCodec emptyImage) = .ok emptyImage :=
  read_write_roundtrip idCodec (fun _ => rfl) emptyImage (by decide) rfl

/-- C2: `write` produces exactly the magic bytes `58 59 5A 31`, the width and
height as little-endian 16-bit values, then the compressed body, whose
decompressed content is the 768 palette bytes in index order immediately
followed by the entire pixel buffer, with nothing else. -/
theorem write_format (c : ZlibCodec) (hc : c.Lawful) (img : Image)
    (hty : img.TypeWF) :
    write c img
      = [0x58, 0x59, 0x5a, 0x31]
        ++ [img.width % 256, img.width / 256]
        ++ [img.height % 256, img.height / 256]
        ++ c.compress (img.palette.flatMap id ++ img.buffer)
    ∧ c.decompress (c.compress (img.palette.flatMap id ++ img.buffer))
        = some (img.palette.flatMap id ++ img.buffer)
    ∧ (img.palette.flatMap id).length = 768 := by
  obtain ⟨hw, hh, hplen, hpslots, _⟩ := hty
  refine ⟨?_, hc _, ?_⟩
  · have hw2 : img.width / 256 % 256 = img.width / 256 := by omega
    have hh2 : img.height / 256 % 256 = img.height / 256 := by omega
    norm_num [write, writeBody, u32leBytes, u16leBytes, MAGIC_NUMBER, hw2, hh2]
  · rw [length_flatMap_id img.palette (fun p hp => (hpslots p hp).1), hplen]

/-- C2 witness: the format equation evaluated on a concrete image. -/
theorem write_format_witness :
    write idCodec emptyImage
      = [0x58, 0x59, 0x5a, 0x31] ++ [0, 0] ++ [0, 0]
        ++ idCodec.compress (emptyImage.palette.flatMap id ++ emptyImage.buffer)
    ∧ idCodec.decompress (idCodec.compress
        (emptyImage.palette.flatMap id ++ emptyImage.buffer))
        = some (emptyImage.palette.flatMap id ++ emptyImage.buffer)
    ∧ (emptyImage.palette.flatMap id).length = 768 :=
  write_format idCodec (fun _ => rfl) emptyImage (by decide)

/-- C3: any input of length at least 4 whose first four bytes are genuine
bytes (< 256) differing from `58 59 5A 31` makes `read` fail with the
invalid-header error, regardless of the rest of the stream. -/
theorem read_rejects_bad_magic (c : ZlibCodec) (input : List Nat)
    (hlen : 4 ≤ input.length) (hbytes : ∀ b ∈ input.take 4, b < 256)
    (hmagic : input.take 4 ≠ [0x58, 0x59, 0x5a, 0x31]) :
    read c input = .error (.invalidData "invalid XYZ header") := by
  match input, hlen with
  | a :: b :: e :: d :: rest, _ =>
    have ha : a < 256 := hbytes a (by simp)
    have hb : b < 256 := hbytes b (by simp)
    have he : e < 256 := hbytes e (by simp)
    have hd : d < 256 := hbytes d (by simp)
    have htake : (a :: b :: e :: d :: rest).take 4 = [a, b, e, d] := rfl
    rw [htake] at hmagic
    have hv : a + 256 * (b + 256 * (e + 256 * d)) ≠ MAGIC_NUMBER := by
      intro hva
      apply hmagic
      unfold MAGIC_NUMBER at hva
      have hdig : a = 0x58 ∧ b = 0x59 ∧ e = 0x5a ∧ d = 0x31 := by omega
      rw [hdig.1, hdig.2.1, hdig.2.2.1, hdig.2.2.2]
    rw [read]
    simp only [readU32LE]
    rw [if_pos hv]

/-- C3 witness: a concrete stream with a wrong magic is rejected. -/
theorem read_rejects_bad_magic_witness :
    read idCodec [0, 0, 0, 0] = .error (.invalidData "invalid XYZ header") :=
  read_rejects_bad_magic idCodec [0, 0, 0, 0] (by decide) (by decide) (by decide)

/-- C4: through any conformant codec, a stream with valid magic, width and
height whose decompressed body has fewer than 768 bytes fails during the
palette read, and one whose body has at least 768 but fewer than
`768 + width * height` bytes fails during the buffer read; both failures
surface as the `read_exact` end-of-file error. -/
theorem read_truncated_body (c : ZlibCodec) (hc : c.Lawful) (w h : Nat)
    (hw : w < 65536) (hh : h < 65536) (body : List Nat) :
    (body.length < 768 →
      read c (u32leBytes MAGIC_NUMBER ++ u16leBytes w ++ u16leBytes h
          ++ c.compress body) = .error .eof)
    ∧ (768 ≤ body.length → body.length < 768 + w * h →
      read c (u32leBytes MAGIC_NUMBER ++ u16leBytes w ++ u16leBytes h
          ++ c.compress body) = .error .eof) := by
  constructor
  · intro hshort
    rw [read_frame c hc w h hw hh]
    simp only [readPalette_none_of_short 256 body (by omega)]
  · intro h768 hlt
    obtain ⟨ps, hps, _, _⟩ := readPalette_some_of_le 256 body (by omega)
    rw [read_frame c hc w h hw hh]
    simp only [hps, readExact_eq_none (w * h) (body.drop (3 * 256)) (by simp; omega)]

/-- C4 witness: a 1×1 stream with an empty body (truncated palette) and one
with exactly 768 body bytes (truncated buffer) are both rejected. -/
theorem read_truncated_body_witness :
    read idCodec (u32leBytes MAGIC_NUMBER ++ u16leBytes 1 ++ u16leBytes 1
        ++ idCodec.compress []) = .error .eof
    ∧ read idCodec (u32leBytes MAGIC_NUMBER ++ u16leBytes 1 ++ u16leBytes 1
        ++ idCodec.compress (List.replicate 768 0)) = .error .eof :=
  ⟨(read_truncated_body idCodec (fun _ => rfl) 1 1 (by decide) (by decide)
      []).1 (by decide),
   (read_truncated_body idCodec (fun _ => rfl) 1 1 (by decide) (by decide)
      (List.replicate 768 0)).2 (by simp) (by simp)⟩

/-- C5: through any conformant codec, a stream with valid magic, width and
height whose decompressed body is longer than `768 + width * height` bytes is
rejected with the trailing-data error. -/
theorem read_rejects_trailing (c : ZlibCodec) (hc : c.Lawful) (w h : Nat)
    (hw : w < 65536) (hh : h < 65536) (body : List Nat)
    (hlong : 768 + w * h < body.length) :
    read c (u32leBytes MAGIC_NUMBER ++ u16leBytes w ++ u16leBytes h
        ++ c.compress body)
      = .error (.invalidData "extra data at end of XYZ file") := by
  obtain ⟨ps, hps, _, _⟩ := readPalette_some_of_le 256 body (by omega)
  rw [read_frame c hc w h hw hh]
  have hex : readExact (w * h) (body.drop (3 * 256))
      = some ((body.drop (3 * 256)).take (w * h), (body.drop (3 * 256)).drop (w * h)) :=
    readExact_of_le _ _ (by simp; omega)
  simp only [hps, hex]
  rw [if_pos]
  intro hempty
  have hle : body.length ≤ 768 + w * h := by simpa using hempty
  omega

/-- C5 witness: a 0×0 stream whose body has 769 bytes is rejected as trailing
data. -/
theorem read_rejects_trailing_witness :
    read idCodec (u32leBytes MAGIC_NUMBER ++ u16leBytes 0 ++ u16leBytes 0
        ++ idCodec.compress (List.replicate 769 0))
      = .error (.invalidData "extra data at end of XYZ file") :=
  read_rejects_trailing idCodec (fun _ => rfl) 0 0 (by decide) (by decide)
    (List.replicate 769 0) (by simp)

/-- C7: every `Image` a successful `read` returns has a palette of exactly 256
three-byte entries and a buffer of length exactly `width * height` for the
decoded (possibly zero) dimensions; in particular a zero width or height
yields an empty buffer while the palette is still present in full. -/
theorem read_ok_invariants (c : ZlibCodec) (input : List Nat) (img : Image)
    (hok : read c input = .ok img) :
    img.palette.length = 256 ∧ (∀ p ∈ img.palette, p.length = 3)
    ∧ img.buffer.length = img.width * img.height
    ∧ ((img.width = 0 ∨ img.height = 0) → img.buffer = []) := by
  rw [read] at hok
  split at hok
  · exact Except.noConfusion hok
  rename_i magic rest hu32
  split at hok
  · exact Except.noConfusion hok
  split at hok
  · exact Except.noConfusion hok
  rename_i width rest2 hu16w
  split at hok
  · exact Except.noConfusion hok
  rename_i height rest3 hu16h
  split at hok
  · exact Except.noConfusion hok
  rename_i body hdec
  split at hok
  · exact Except.noConfusion hok
  rename_i palette body2 hpal
  split at hok
  · exact Except.noConfusion hok
  rename_i buffer body3 hex
  split at hok
  · exact Except.noConfusion hok
  injection hok with himg
  subst himg
  obtain ⟨hplen, hslots, -⟩ := readPalette_fields 256 body palette body2 hpal
  obtain ⟨hblen, -, -⟩ := readExact_fields (width * height) body2 buffer body3 hex
  refine ⟨hplen, hslots, hblen, ?_⟩
  intro h0
  have : width * height = 0 := by rcases h0 with h0 | h0 <;> simp_all
  rw [← List.length_eq_zero, hblen, this]

/-- C7 witness: the invariants hold for the image decoded from a concrete
valid stream. -/
theorem read_ok_invariants_witness :
    emptyImage.palette.length = 256 :=
  (read_ok_invariants idCodec (write idCodec emptyImage) emptyImage rfl).1

/-- C8: `write` never checks `buffer.length = width * height`: for any
type-correct image it succeeds (the model's `write` is total) and emits the
buffer at its actual length, so the decompressed body has
`768 + buffer.length` bytes; and whenever the lengths mismatch, re-reading the
output fails — with the trailing-data error when the buffer is too long, and
with the short-read end-of-file error when it is too short. -/
theorem write_unvalidated (c : ZlibCodec) (hc : c.Lawful) (img : Image)
    (hty : img.TypeWF) :
    (writeBody img).length = 768 + img.buffer.length
    ∧ c.decompress (c.compress (writeBody img)) = some (writeBody img)
    ∧ (img.buffer.length ≠ img.width * img.height →
        read c (write c img)
          = .error (if img.width * img.height < img.buffer.length
              then .invalidData "extra data at end of XYZ file"
              else .eof)) := by
  obtain ⟨hw, hh, hplen, hpslots, _⟩ := hty
  have hslots3 : ∀ p ∈ img.palette, p.length = 3 := fun p hp => (hpslots p hp).1
  have hbodylen : (writeBody img).length = 768 + img.buffer.length := by
    rw [writeBody, List.length_append,
      length_flatMap_id img.palette hslots3, hplen]
  refine ⟨hbodylen, hc _, ?_⟩
  intro hne
  have hp := readPalette_append img.palette hslots3 img.buffer
  rw [hplen] at hp
  rw [write, writeBody, read_frame c hc img.width img.height hw hh]
  by_cases hlt : img.width * img.height < img.buffer.length
  · have hex : readExact (img.width * img.height) img.buffer
        = some (img.buffer.take (img.width * img.height),
                img.buffer.drop (img.width * img.height)) :=
      readExact_of_le _ _ (by omega)
    simp only [hp, hex, if_pos hlt]
    rw [if_pos]
    intro hempty
    have : img.buffer.length ≤ img.width * img.height := by simpa using hempty
    omega
  · have hgt : img.buffer.length < img.width * img.height := by omega
    simp only [hp, readExact_eq_none _ _ hgt, if_neg hlt]

/-- C8 witness: a 1×1 image with an empty buffer is written without complaint
and its output is rejected on re-read with the end-of-file error. -/
theorem write_unvalidated_witness :
    read idCodec (write idCodec shortImage) = .error .eof := by
  have h := (write_unvalidated idCodec (fun _ => rfl) shortImage
    (by decide)).2.2 (by decide)
  simpa [shortImage] using h

/-- C6: for any well-formed image, `to_rgb_buffer` yields exactly
`3 * width * height` bytes in which the `k`-th pixel's palette index is
replaced, in row-major order, by the three channel values of the palette entry
at that index; in particular the spec's 2×1 example expands to
`[10, 20, 30, 40, 50, 60]`. -/
theorem to_rgb_buffer_spec :
    (∀ img : Image, img.TypeWF → img.buffer.length = img.width * img.height →
      img.to_rgb_buffer.length = 3 * (img.width * img.height)
      ∧ ∀ k, k < img.width * img.height →
          (img.to_rgb_buffer.drop (3 * k)).take 3
            = img.palette.getD (img.buffer.getD k 0) [])
    ∧ exampleImage.to_rgb_buffer = [10, 20, 30, 40, 50, 60] := by
  constructor
  · intro img hty hbuf
    obtain ⟨_, _, hplen, hpslots, hbytes⟩ := hty
    have hf : ∀ b ∈ img.buffer, (img.palette.getD b []).length = 3 :=
      fun b hb => palette_getD_length img.palette hplen
        (fun p hp => (hpslots p hp).1) b (hbytes b hb)
    constructor
    · rw [Image.to_rgb_buffer, flatMap_chunk_length img.buffer _ hf, hbuf]
    · intro k hk
      rw [Image.to_rgb_buffer]
      exact flatMap_chunk_drop_take img.buffer _ hf k (by omega)
  · rfl

/-- C6 witness: the length law evaluated on the spec's example image. -/
theorem to_rgb_buffer_spec_witness :
    exampleImage.to_rgb_buffer.length
      = 3 * (exampleImage.width * exampleImage.height) :=
  (to_rgb_buffer_spec.1 exampleImage (by decide) (by decide)).1

/-- C10: `to_rgb_buffer` is total on every type-correct `Image`, even when
`buffer.length` differs from `width * height`: every buffer byte is an
in-range palette index (the palette has 256 entries and bytes are < 256), and
the result has length exactly three times the actual buffer length. -/
theorem to_rgb_buffer_total (img : Image) (hplen : img.palette.length = 256)
    (hslots : ∀ p ∈ img.palette, p.length = 3)
    (hbytes : ∀ b ∈ img.buffer, b < 256) :
    (∀ b ∈ img.buffer, b < img.palette.length)
    ∧ img.to_rgb_buffer.length = 3 * img.buffer.length := by
  refine ⟨fun b hb => by rw [hplen]; exact hbytes b hb, ?_⟩
  rw [Image.to_rgb_buffer]
  exact flatMap_chunk_length img.buffer _
    (fun b hb => palette_getD_length img.palette hplen hslots b (hbytes b hb))

/-- C10 witness: the length law on a malformed image whose buffer length (2)
differs from `width * height` (25). -/
theorem to_rgb_buffer_total_witness :
    malformedImage.to_rgb_buffer.length = 3 * malformedImage.buffer.length :=
  (to_rgb_buffer_total malformedImage (by decide) (by decide) (by decide)).2

/-- C9 counterexample: a stream whose decompressed body is shorter than 768
bytes (truncated palette: valid 1×1 header, empty body) and a stream whose
body has exactly 768 bytes but lacks the pixel byte (truncated buffer) make
`read` return literally the same error value, so the truncated-palette and
truncated-buffer conditions are not distinguishable from the returned error,
and neither is distinguishable from a header short read. -/
theorem truncation_errors_collide :
    read idCodec [0x58, 0x59, 0x5a, 0x31, 1, 0, 1, 0]
      = read idCodec ([0x58, 0x59, 0x5a, 0x31, 1, 0, 1, 0]
          ++ List.replicate 768 0)
    ∧ read idCodec [0x58, 0x59, 0x5a, 0x31, 1, 0, 1, 0] = .error .eof :=
  ⟨rfl, rfl⟩

/-- C9 (amended): every failure of `read` is surfaced as one of exactly four
error values — the end-of-file error, the compression-stream error, the
invalid-header error, or the trailing-data error — and those four are pairwise
distinguishable; the invalid-header and trailing-data conditions are therefore
distinguishable, but the truncated-palette, truncated-buffer and short-read
conditions all surface as the single end-of-file value. -/
theorem read_error_classes :
    (∀ (c : ZlibCodec) (input : List Nat) (e : IoError),
      read c input = .error e →
        e = .eof ∨ e = .zlib ∨ e = .invalidData "invalid XYZ header"
          ∨ e = .invalidData "extra data at end of XYZ file")
    ∧ ((IoError.eof ≠ .zlib)
      ∧ (IoError.eof ≠ .invalidData "invalid XYZ header")
      ∧ (IoError.eof ≠ .invalidData "extra data at end of XYZ file")
      ∧ (IoError.zlib ≠ .invalidData "invalid XYZ header")
      ∧ (IoError.zlib ≠ .invalidData "extra data at end of XYZ file")
      ∧ (IoError.invalidData "invalid XYZ header"
          ≠ .invalidData "extra data at end of XYZ file")) := by
  constructor
  · intro c input e h
    rw [read] at h
    repeat' split at h
    all_goals first
      | exact Except.noConfusion h
      | (injection h with h; subst h; simp)
  · exact ⟨by decide, by decide, by decide, by decide, by decide, by decide⟩

/-- C9 witness: the classification applied to a concrete failing stream. -/
theorem read_error_classes_witness :
    IoError.eof = .eof ∨ IoError.eof = .zlib
      ∨ IoError.eof = .invalidData "invalid XYZ header"
      ∨ IoError.eof = .invalidData "extra data at end of XYZ file" :=
  read_error_classes.1 idCodec [] .eof rfl

end Xyz
